import Mathlib

/-!
Verification development for the personal-trainer-booking engine:
capacity admission, cancellation policy, package accountant, reminder
scheduler and dispatch retrier, shallowly embedded from the JavaScript
source (Mongoose models, Express route handlers, email service and the
cron scheduler).  Timestamps are modelled as integer milliseconds since
an epoch, in a single operating timezone, matching the Date arithmetic
of the source.
-/

namespace PTB

/-! ### Time arithmetic -/

/-- Milliseconds in one minute. -/
def minuteMs : Int := 60 * 1000

/-- Milliseconds in one hour. -/
def hourMs : Int := 60 * 60 * 1000

/-- Milliseconds in one day. -/
def dayMs : Int := 24 * 60 * 60 * 1000

/-- Midnight (start of the calendar day) of a timestamp.  This models the
JavaScript idiom new Date(d.getFullYear(), d.getMonth(), d.getDate())
and also Date.setHours(h, m, 0, 0) applied afterwards, in the single
operating timezone.  Int emod is nonnegative, so this is the floor to a
multiple of dayMs. -/
def midnightOf (t : Int) : Int := t - t % dayMs

/-- Days since 1970-01-01 of a civil date (standard days-from-civil
algorithm, used only to name concrete calendar dates in theorems). -/
def daysFromCivil (y m d : Int) : Int :=
  let yy := if m ≤ 2 then y - 1 else y
  let era := (if 0 ≤ yy then yy else yy - 399) / 400
  let yoe := yy - era * 400
  let mp := if 2 < m then m - 3 else m + 9
  let doy := (153 * mp + 2) / 5 + d - 1
  let doe := yoe * 365 + yoe / 4 - yoe / 100 + doy
  era * 146097 + doe - 719468

/-- Timestamp in milliseconds of a civil date at an hour:minute of day. -/
def civilMs (y m d hh mm : Int) : Int :=
  daysFromCivil y m d * dayMs + hh * hourMs + mm * minuteMs

/-- Decimal value of a digit list, modelling parseInt on a validated
digit string. -/
def digitsVal (cs : List Char) : Nat :=
  cs.foldl (fun acc c => acc * 10 + (c.toNat - 48)) 0

/-- Split a character list at the first colon, modelling the split of a
validated HH:MM time string. -/
def splitAtColon (cs : List Char) : List Char × List Char :=
  match cs with
  | [] => ([], [])
  | c :: rest =>
    if c = ':' then ([], rest)
    else
      let p := splitAtColon rest
      (c :: p.1, p.2)

/-- Hour and minute of a session time string, modelling
session.time.split with parseInt applied to the two parts. -/
def timeParts (t : String) : Nat × Nat :=
  let p := splitAtColon t.toList
  (digitsVal p.1, digitsVal p.2)

/-! ### Data model

Shallow embedding of the Mongoose schemas.  Object ids are modelled as
natural numbers; Date fields as Int milliseconds; nullable fields as
Option. -/

/-- Booking status enum of the Booking schema. -/
inductive BookingStatus
  | confirmed
  | cancelled
deriving DecidableEq, Repr

/-- User role enum of the User schema. -/
inductive Role
  | admin
  | client
deriving DecidableEq, Repr

/-- A Session document (models/Session.js).  The date field is the
calendar-date timestamp; time is the validated HH:MM string. -/
structure Session where
  sid : Nat
  date : Int
  time : String
  maxCapacity : Nat
  isActive : Bool
  packageDuration : Nat := 90
deriving DecidableEq, Repr

/-- A Booking document (models/Booking.js). -/
structure Booking where
  bid : Nat
  session : Nat
  client : Nat
  groupSize : Nat
  status : BookingStatus := .confirmed
  notes : String := ""
  reminderSent : Bool := false
  canCancel : Bool := true
  cancellationDeadline : Option Int := none
  isPackageBooking : Bool := false
  packageId : Option String := none
  sessionNumber : Option Nat := none
deriving DecidableEq, Repr

/-- A User document restricted to the fields the engine reads: role and
the client package state (part of the User schema). -/
structure User where
  uid : Nat
  role : Role
  activeSessions : Int
  packageExpiry : Option Int := none
deriving DecidableEq, Repr

/-- The store: the three collections the engine operates on. -/
structure AppState where
  sessions : List Session
  bookings : List Booking
  users : List User
deriving DecidableEq, Repr

/-- Point lookup of a session by id (Session.findById). -/
def findSession (st : AppState) (sid : Nat) : Option Session :=
  st.sessions.find? (fun s => s.sid == sid)

/-- Point lookup of a booking by id (Booking.findById). -/
def findBooking (st : AppState) (bid : Nat) : Option Booking :=
  st.bookings.find? (fun b => b.bid == bid)

/-- Point lookup of a user by id (User.findById). -/
def findUser (st : AppState) (uid : Nat) : Option User :=
  st.users.find? (fun u => u.uid == uid)

/-- Update every user document matching an id (User.findByIdAndUpdate;
ids are unique in the store, so at most one document matches). -/
def updateUser (users : List User) (uid : Nat) (f : User → User) : List User :=
  users.map (fun u => if u.uid == uid then f u else u)

/-! ### Cancellation policy (models/Booking.js) -/

/-- Combined date-and-time timestamp of a session: new Date(session.date)
followed by setHours(hours, minutes, 0, 0) on the parts of
session.time.split.  Used both by calculateCancellationDeadline and by
the reminder scheduler. -/
def sessionDateTime (s : Session) : Int :=
  midnightOf s.date + ((timeParts s.time).1 : Int) * hourMs
    + ((timeParts s.time).2 : Int) * minuteMs

/-- The pure deadline computation at the heart of
calculateCancellationDeadline: the combined session timestamp minus 24
hours. -/
def deadlineOf (date : Int) (time : String) : Int :=
  (midnightOf date + ((timeParts time).1 : Int) * hourMs
    + ((timeParts time).2 : Int) * minuteMs) - 24 * 60 * 60 * 1000

/-- BookingSchema.methods.calculateCancellationDeadline: looks the
session up; returns the deadline when found and null otherwise. -/
def calculateCancellationDeadline (lookup : Nat → Option Session)
    (sessionRef : Nat) : Option Int :=
  match lookup sessionRef with
  | some s => some (deadlineOf s.date s.time)
  | none => none

/-- BookingSchema.methods.isCancellable: now < cancellationDeadline.  A
JavaScript comparison against an unset deadline is false. -/
def isCancellable (b : Booking) (now : Int) : Bool :=
  match b.cancellationDeadline with
  | some d => now < d
  | none => false

/-- The pre-save middleware of BookingSchema: on a new document it
stores the computed deadline (possibly null) and the canCancel flag;
on a later save of an existing document it changes nothing. -/
def preSave (lookup : Nat → Option Session) (isNewDoc : Bool) (now : Int)
    (b : Booking) : Booking :=
  if isNewDoc then
    let dl := calculateCancellationDeadline lookup b.session
    { b with
      cancellationDeadline := dl,
      canCancel := match dl with | some d => now < d | none => false }
  else b

/-- Saving a brand-new booking document runs the pre-save middleware and
inserts the document; a missing session never aborts the save. -/
def saveNewBooking (st : AppState) (now : Int) (b : Booking) : AppState :=
  { st with bookings := st.bookings ++ [preSave (findSession st) true now b] }

/-! ### Capacity ledger (models/Session.js) -/

/-- Sum of groupSize over the confirmed bookings of a session, as read
by getAvailableSpots. -/
def confirmedGroupSum (bookings : List Booking) (sid : Nat) : Nat :=
  ((bookings.filter
      (fun b => b.session == sid && b.status == BookingStatus.confirmed)).map
    (fun b => b.groupSize)).sum

/-- SessionSchema.methods.getAvailableSpots: maxCapacity minus the
confirmed group-size sum. -/
def getAvailableSpots (st : AppState) (s : Session) : Int :=
  (s.maxCapacity : Int) - (confirmedGroupSum st.bookings s.sid : Int)

/-- SessionSchema.methods.hasCapacity: availableSpots >= groupSize. -/
def hasCapacity (st : AppState) (s : Session) (groupSize : Int) : Bool :=
  groupSize ≤ getAvailableSpots st s

/-! ### Booking admission (routes/auth.js, POST /booking) -/

/-- Error taxonomy of the booking admission route, in source order. -/
inductive AdmitError
  | adminsCannotBook
  | invalidGroupSize
  | sessionUnavailable
  | capacityExceeded
deriving DecidableEq, Repr

/-- POST /booking: reject admins; validate groupSize in [1,4]; require
an existing active session; require capacity; then create the confirmed
booking (the pre-save middleware stores its deadline), and on a package
booking increment the client package counter and push its expiry
forward by the session packageDuration. -/
def admitBooking (st : AppState) (role : Role) (uid : Nat) (sessionId : Nat)
    (groupSize : Int) (isPkg : Bool) (now : Int) (newBid : Nat) :
    Except AdmitError (AppState × Booking) :=
  if role == .admin then .error .adminsCannotBook
  else if !(1 ≤ groupSize && groupSize ≤ 4) then .error .invalidGroupSize
  else
    match findSession st sessionId with
    | none => .error .sessionUnavailable
    | some s =>
      if !s.isActive then .error .sessionUnavailable
      else if !hasCapacity st s groupSize then .error .capacityExceeded
      else
        let b :=
          preSave (findSession st) true now
            { bid := newBid, session := sessionId, client := uid,
              groupSize := groupSize.toNat, isPackageBooking := isPkg }
        let users1 :=
          if isPkg then
            updateUser st.users uid (fun u =>
              { u with
                activeSessions := u.activeSessions + 1,
                packageExpiry :=
                  some (now + (s.packageDuration : Int) * dayMs) })
          else st.users
        .ok ({ st with bookings := st.bookings ++ [b], users := users1 }, b)

/-! ### Booking cancellation (routes/auth.js, DELETE /booking/:id) -/

/-- Error taxonomy of the cancellation route, in source order. -/
inductive CancelError
  | notFound
  | notAuthorized
  | windowClosed
deriving DecidableEq, Repr

/-- DELETE /booking/:id: require the booking to exist; a non-admin may
only touch an own booking; a non-admin past the deadline is rejected
with the window-closed error; otherwise decrement the client package
counter when the booking is package-flagged (plain decrement, no floor),
send the best-effort cancellation email, and hard-delete the booking. -/
def cancelBooking (st : AppState) (role : Role) (uid : Nat) (bid : Nat)
    (now : Int) : Except CancelError AppState :=
  match findBooking st bid with
  | none => .error .notFound
  | some b =>
    if role != .admin && b.client != uid then .error .notAuthorized
    else if role != .admin && !isCancellable b now then .error .windowClosed
    else
      let users1 :=
        if b.isPackageBooking then
          updateUser st.users b.client (fun u =>
            { u with activeSessions := u.activeSessions - 1 })
        else st.users
      .ok { st with
            users := users1,
            bookings := st.bookings.filter (fun x => x.bid != bid) }

/-! ### Session deletion (routes/auth.js, DELETE /session/:id) -/

/-- A cancellation notification dispatched during the cascade delete. -/
structure CancelNotice where
  bid : Nat
  client : Nat
deriving DecidableEq, Repr

/-- DELETE /session/:id: email a cancellation notification for each
confirmed booking of the session, then delete every booking of the
session (any status) and the session itself.  User documents are never
touched. -/
def deleteSession (st : AppState) (sid : Nat) : AppState × List CancelNotice :=
  let notices :=
    ((st.bookings.filter
        (fun b => b.session == sid && b.status == BookingStatus.confirmed)).map
      (fun b => { bid := b.bid, client := b.client : CancelNotice }))
  ({ st with
     sessions := st.sessions.filter (fun s => s.sid != sid),
     bookings := st.bookings.filter (fun b => b.session != sid) },
   notices)

/-! ### Package accountant (routes/auth.js admin package routes,
models of the User schema) -/

/-- UserSchema.methods.hasActivePackage: a package is active iff the
counter is positive, the expiry is set and now is before it. -/
def hasActivePackage (u : User) (now : Int) : Bool :=
  (0 < u.activeSessions) &&
    (match u.packageExpiry with | some e => now < e | none => false)

/-- The update document of add-package: activeSessions incremented by 8
and packageExpiry set to now + 90 days. -/
def addPkgFn (now : Int) (u : User) : User :=
  { u with activeSessions := u.activeSessions + 8,
           packageExpiry := some (now + 90 * dayMs) }

/-- The update document of reset-package: activeSessions set to 0 and
packageExpiry set to null. -/
def resetPkgFn (u : User) : User :=
  { u with activeSessions := 0, packageExpiry := none }

/-- POST /client/:id/add-package: require an existing client-role user;
increment activeSessions by 8 and set packageExpiry to now + 90 days. -/
def adminAddPackage (st : AppState) (cid : Nat) (now : Int) :
    Except Unit AppState :=
  match findUser st cid with
  | none => .error ()
  | some c =>
    if c.role != .client then .error ()
    else .ok { st with users := updateUser st.users cid (addPkgFn now) }

/-- POST /client/:id/reset-package: require an existing user; set
activeSessions to 0 and unset packageExpiry. -/
def adminResetPackage (st : AppState) (cid : Nat) : Except Unit AppState :=
  match findUser st cid with
  | none => .error ()
  | some _ =>
    .ok { st with users := updateUser st.users cid resetPkgFn }

/-! ### Reminder scheduler (reminderScheduler.js, sendSessionReminders)

One scan tick, parameterised by the scan time now and by a dispatch
oracle giving the success of the reminder email for each booking id
(the sendEmail call with its internal retries, collapsed to its final
success bit). -/

/-- Start of the reminder lookahead window: now + 2 hours − 7 minutes. -/
def windowStart (now : Int) : Int :=
  now + 2 * 60 * 60 * 1000 - 7 * 60 * 1000

/-- End of the reminder lookahead window: now + 2 hours + 8 minutes. -/
def windowEnd (now : Int) : Int :=
  now + 2 * 60 * 60 * 1000 + 8 * 60 * 1000

/-- The coarse date-only query filter of the tick: active sessions whose
date lies between the calendar days of the two window bounds. -/
def coarseFilter (now : Int) (s : Session) : Bool :=
  decide (midnightOf (windowStart now) ≤ s.date) &&
    decide (s.date ≤ midnightOf (windowEnd now)) && s.isActive

/-- The fine recheck of the tick: the combined session timestamp lies
inside the precise window. -/
def inFineWindow (now : Int) (s : Session) : Bool :=
  decide (windowStart now ≤ sessionDateTime s) &&
    decide (sessionDateTime s ≤ windowEnd now)

/-- The booking query of the tick: confirmed bookings of the session
whose reminderSent flag is not true. -/
def dueFilter (s : Session) (b : Booking) : Bool :=
  b.session == s.sid && b.status == BookingStatus.confirmed && !b.reminderSent

/-- One reminder dispatch observed during a tick. -/
structure RemEvent where
  bid : Nat
  client : Nat
  success : Bool
deriving DecidableEq, Repr

/-- Persist reminderSent = true on the booking document with this id. -/
def setReminder (bs : List Booking) (bid : Nat) : List Booking :=
  bs.map (fun b => if b.bid == bid then { b with reminderSent := true } else b)

/-- Dispatch a reminder per due booking, marking reminderSent in the
store immediately after each successful dispatch; failures are isolated
and leave the flag unset. -/
def dispatchAll (ocl : Nat → Bool) :
    List Booking → List Booking × List RemEvent → List Booking × List RemEvent
  | [], acc => acc
  | b :: rest, (bs, evs) =>
    let ok := ocl b.bid
    let bs1 := if ok then setReminder bs b.bid else bs
    dispatchAll ocl rest (bs1, evs ++ [{ bid := b.bid, client := b.client, success := ok }])

/-- Per-session body of the tick loop: recheck the fine window, fetch
the due bookings from the current store and dispatch them. -/
def tickSession (ocl : Nat → Bool) (now : Int)
    (acc : List Booking × List RemEvent) (s : Session) :
    List Booking × List RemEvent :=
  if inFineWindow now s then dispatchAll ocl (acc.1.filter (dueFilter s)) acc
  else acc

/-- The session loop of a tick. -/
def tickSessions (ocl : Nat → Bool) (now : Int) :
    List Session → List Booking × List RemEvent → List Booking × List RemEvent
  | [], acc => acc
  | s :: rest, acc => tickSessions ocl now rest (tickSession ocl now acc s)

/-- sendSessionReminders: one scan tick over the store. -/
def tick (ocl : Nat → Bool) (now : Int) (sessions : List Session)
    (bs : List Booking) : List Booking × List RemEvent :=
  tickSessions ocl now (sessions.filter (coarseFilter now)) (bs, [])

/-- A sequence of scan ticks, each with its own scan time and dispatch
oracle; returns the final bookings and all dispatch events in order. -/
def runTicks : List ((Nat → Bool) × Int) → List Session → List Booking →
    List Booking × List RemEvent
  | [], _, bs => (bs, [])
  | (ocl, now) :: rest, sessions, bs =>
    let p := tick ocl now sessions bs
    let q := runTicks rest sessions p.1
    (q.1, p.2 ++ q.2)

/-! ### Dispatch retrier (emailService.js, sendEmail) -/

/-- Result record of sendEmail: either success with the message id of
the delivery, or failure carrying the last error message. -/
structure SendRes where
  success : Bool
  messageId : Option String
  errMsg : Option String
  attemptsMade : Nat
  waits : List Int
deriving DecidableEq, Repr

/-- The retry loop of sendEmail over the remaining attempt numbers: a
successful attempt returns at once; a failed attempt records the last
error and, when it is not the final attempt, waits 2 ^ attempt seconds
before the next one. -/
def retryRun (att : Nat → Except String String) :
    List Nat → Option String → SendRes
  | [], lastErr =>
    { success := false, messageId := none, errMsg := lastErr,
      attemptsMade := 0, waits := [] }
  | i :: rest, _ =>
    match att i with
    | .ok mid =>
      { success := true, messageId := some mid, errMsg := none,
        attemptsMade := 1, waits := [] }
    | .error e =>
      let r := retryRun att rest (some e)
      { r with
        attemptsMade := r.attemptsMade + 1,
        waits := if rest.isEmpty then r.waits else ((2 : Int) ^ i * 1000) :: r.waits }

/-- The default retry budget of sendEmail. -/
def defaultMaxRetries : Nat := 3

/-- sendEmail(to, template, maxRetries): reject an invalid destination
address by throwing; otherwise run the attempt loop for attempt
numbers 1 .. maxRetries.  The maxRetries parameter defaults to
defaultMaxRetries = 3 at every call site of the source. -/
def sendEmailRetry (toValid : Bool) (att : Nat → Except String String)
    (maxRetries : Nat) : Except String SendRes :=
  if !toValid then .error "Invalid email address"
  else .ok (retryRun att (List.range' 1 maxRetries) none)

/-! ### System step relation

The sequential operations of the system acting on the store: booking
admission, booking cancellation and session deletion. -/

/-- One operation of the system applied successfully to the store. -/
inductive Step : AppState → AppState → Prop
  | admission {st st2 : AppState} (role : Role) (uid sessionId : Nat) (g : Int)
      (isPkg : Bool) (now : Int) (newBid : Nat) (b : Booking)
      (h : admitBooking st role uid sessionId g isPkg now newBid = .ok (st2, b)) :
      Step st st2
  | cancel {st st2 : AppState} (role : Role) (uid bid : Nat) (now : Int)
      (h : cancelBooking st role uid bid now = .ok st2) :
      Step st st2
  | removeSession {st : AppState} (sid : Nat) :
      Step st (deleteSession st sid).1

/-- Reachability under the system operations. -/
inductive Reach : AppState → AppState → Prop
  | refl (st : AppState) : Reach st st
  | tail {st st2 st3 : AppState} (hr : Reach st st2) (hs : Step st2 st3) :
      Reach st st3

/-- Store well-formedness plus the capacity invariant: session ids are
unique, and every session's confirmed group-size sum fits its capacity. -/
def goodState (st : AppState) : Prop :=
  (st.sessions.map (fun s => s.sid)).Nodup ∧
  ∀ s ∈ st.sessions, confirmedGroupSum st.bookings s.sid ≤ s.maxCapacity

/-! ### Concrete fixtures used by witnesses -/

/-- A concrete active session: 2024-06-10 at 18:00, capacity 3. -/
def sessA : Session :=
  { sid := 1, date := civilMs 2024 6 10 0 0, time := "18:00",
    maxCapacity := 3, isActive := true }

/-- A concrete confirmed booking of sessA for client 7, group of 2. -/
def bookA : Booking :=
  { bid := 1, session := 1, client := 7, groupSize := 2,
    cancellationDeadline := some (deadlineOf sessA.date sessA.time) }

/-- A concrete client with no package sessions. -/
def userA : User := { uid := 7, role := .client, activeSessions := 0 }

/-- A concrete store holding sessA, bookA and userA. -/
def stA : AppState := { sessions := [sessA], bookings := [bookA], users := [userA] }

/-! ### Helper lemmas -/

@[simp]
theorem preSave_session (l : Nat → Option Session) (n : Bool) (t : Int)
    (b : Booking) : (preSave l n t b).session = b.session := by
  unfold preSave; split <;> rfl

@[simp]
theorem preSave_status (l : Nat → Option Session) (n : Bool) (t : Int)
    (b : Booking) : (preSave l n t b).status = b.status := by
  unfold preSave; split <;> rfl

@[simp]
theorem preSave_groupSize (l : Nat → Option Session) (n : Bool) (t : Int)
    (b : Booking) : (preSave l n t b).groupSize = b.groupSize := by
  unfold preSave; split <;> rfl

@[simp]
theorem preSave_bid (l : Nat → Option Session) (n : Bool) (t : Int)
    (b : Booking) : (preSave l n t b).bid = b.bid := by
  unfold preSave; split <;> rfl

@[simp]
theorem preSave_client (l : Nat → Option Session) (n : Bool) (t : Int)
    (b : Booking) : (preSave l n t b).client = b.client := by
  unfold preSave; split <;> rfl

theorem confirmedGroupSum_cons (b : Booking) (l : List Booking) (sid : Nat) :
    confirmedGroupSum (b :: l) sid =
      (if b.session = sid ∧ b.status = .confirmed then b.groupSize else 0) +
        confirmedGroupSum l sid := by
  by_cases h1 : b.session = sid <;> by_cases h2 : b.status = .confirmed <;>
    simp [confirmedGroupSum, h1, h2]

theorem confirmedGroupSum_append_single (l : List Booking) (b : Booking)
    (sid : Nat) :
    confirmedGroupSum (l ++ [b]) sid =
      confirmedGroupSum l sid +
        (if b.session = sid ∧ b.status = .confirmed then b.groupSize else 0) := by
  by_cases h1 : b.session = sid <;> by_cases h2 : b.status = .confirmed <;>
    simp [confirmedGroupSum, List.filter_append, h1, h2]

theorem confirmedGroupSum_sublist {l1 l2 : List Booking} (h : l1.Sublist l2)
    (sid : Nat) : confirmedGroupSum l1 sid ≤ confirmedGroupSum l2 sid := by
  induction h with
  | slnil => exact le_refl _
  | cons b _ ih => rw [confirmedGroupSum_cons]; omega
  | cons₂ b _ ih => rw [confirmedGroupSum_cons, confirmedGroupSum_cons]; omega

theorem confirmedGroupSum_filter_le (l : List Booking) (p : Booking → Bool)
    (sid : Nat) :
    confirmedGroupSum (l.filter p) sid ≤ confirmedGroupSum l sid :=
  confirmedGroupSum_sublist (List.filter_sublist l) sid

theorem find?_updateUser (users : List User) (cid : Nat) (f : User → User)
    (hf : ∀ u, (f u).uid = u.uid) :
    (updateUser users cid f).find? (fun u => u.uid == cid) =
      (users.find? (fun u => u.uid == cid)).map f := by
  induction users with
  | nil => rfl
  | cons u l ih =>
    by_cases h : u.uid = cid
    · simp [updateUser, List.find?_cons, h, hf]
    · have hb : (u.uid == cid) = false := by simp [h]
      simp only [updateUser, List.map_cons, hb, Bool.false_eq_true, if_false]
      rw [List.find?_cons_of_neg _ (by simp [h]), List.find?_cons_of_neg _ (by simp [h])]
      exact ih

theorem updateUser_idem (users : List User) (cid : Nat) (f : User → User)
    (hfid : ∀ u, (f u).uid = u.uid) (hff : ∀ u, f (f u) = f u) :
    updateUser (updateUser users cid f) cid f = updateUser users cid f := by
  induction users with
  | nil => rfl
  | cons u l ih =>
    by_cases h : u.uid = cid
    · simp [updateUser, h, hfid, hff] at ih ⊢
      exact ih
    · simp [updateUser, h] at ih ⊢
      exact ih

/-! ### Claim theorems -/

/-- C3: the cancellation deadline is a pure, deterministic function of
the session date and time (it is the Lean function deadlineOf): it
equals the combined session timestamp minus 24 hours; on the concrete
date 2024-06-10 at 18:00 it yields 2024-06-09 at 18:00; it is stored
when the booking document is first saved, from the session looked up at
that moment; and the pre-save middleware of a later save leaves the
booking, hence its stored cancellationDeadline, unchanged (the source
has no session-edit operation, and no operation rewrites the stored
deadline of an existing booking). -/
theorem deadline_computation :
    (∀ s : Session, deadlineOf s.date s.time = sessionDateTime s - 24 * hourMs) ∧
    (deadlineOf (civilMs 2024 6 10 0 0) "18:00" = civilMs 2024 6 9 18 0) ∧
    (∀ lookup now b s, lookup b.session = some s →
       (preSave lookup true now b).cancellationDeadline =
         some (deadlineOf s.date s.time)) ∧
    (∀ lookup now b, preSave lookup false now b = b) := by
  refine ⟨?_, by decide, ?_, ?_⟩
  · intro s
    simp only [deadlineOf, sessionDateTime, hourMs]
    ring
  · intro lookup now b s h
    simp [preSave, calculateCancellationDeadline, h]
  · intro lookup now b
    simp [preSave]

/-- Witness for C3 at concrete inputs. -/
theorem deadline_computation_witness :
    ((fun r => if r == 1 then some sessA else none) bookA.session = some sessA) ∧
    (preSave (fun r => if r == 1 then some sessA else none) true 0 bookA).cancellationDeadline =
      some (deadlineOf sessA.date sessA.time) ∧
    preSave (fun _ => none) false 0 bookA = bookA :=
  ⟨rfl,
   deadline_computation.2.2.1 (fun r => if r == 1 then some sessA else none) 0 bookA sessA rfl,
   deadline_computation.2.2.2 (fun _ => none) 0 bookA⟩

/-- C10: when the referenced session cannot be found at the first save
of a booking, the deadline computation yields null, the save is not
aborted and the booking is persisted with cancellationDeadline unset
and canCancel false; any booking with an unset cancellationDeadline is
never cancellable, so a non-admin requester can never cancel it. -/
theorem unset_deadline_never_cancellable :
    (∀ st now b, findSession st b.session = none →
       saveNewBooking st now b =
         { st with bookings := st.bookings ++
             [{ b with cancellationDeadline := none, canCancel := false }] }) ∧
    (∀ b now, b.cancellationDeadline = none → isCancellable b now = false) ∧
    (∀ st uid bid now b, findBooking st bid = some b →
       b.cancellationDeadline = none →
       ∀ st2, cancelBooking st .client uid bid now ≠ .ok st2) := by
  refine ⟨?_, ?_, ?_⟩
  · intro st now b h
    simp [saveNewBooking, preSave, calculateCancellationDeadline, h]
  · intro b now h
    simp [isCancellable, h]
  · intro st uid bid now b hfind hdl st2
    have hic : isCancellable b now = false := by simp [isCancellable, hdl]
    simp only [cancelBooking, hfind, hic]
    by_cases hc : b.client = uid <;> simp [hc]

/-- Witness for C10 at concrete inputs: a booking referencing a missing
session is saved with an unset deadline, and its owner cannot cancel. -/
theorem unset_deadline_never_cancellable_witness :
    (findSession { sessions := [], bookings := [], users := [userA] } bookA.session = none) ∧
    saveNewBooking { sessions := [], bookings := [], users := [userA] } 0 bookA =
      { sessions := [], bookings := [{ bookA with cancellationDeadline := none, canCancel := false }],
        users := [userA] } ∧
    (∀ st2, cancelBooking
        { sessions := [],
          bookings := [{ bookA with cancellationDeadline := none, canCancel := false }],
          users := [userA] } .client 7 1 0 ≠ .ok st2) :=
  ⟨rfl,
   unset_deadline_never_cancellable.1
     { sessions := [], bookings := [], users := [userA] } 0 bookA rfl,
   unset_deadline_never_cancellable.2.2
     { sessions := [],
       bookings := [{ bookA with cancellationDeadline := none, canCancel := false }],
       users := [userA] } 7 1 0
     { bookA with cancellationDeadline := none, canCancel := false } rfl rfl⟩

theorem adminReset_ok_iff (st : AppState) (cid : Nat) (st1 : AppState) :
    adminResetPackage st cid = .ok st1 ↔
      (∃ c, findUser st cid = some c) ∧
        { st with users := updateUser st.users cid resetPkgFn } = st1 := by
  unfold adminResetPackage
  cases h : findUser st cid <;> simp

theorem adminAdd_ok_iff (st : AppState) (cid : Nat) (now : Int) (st1 : AppState) :
    adminAddPackage st cid now = .ok st1 ↔
      (∃ c, findUser st cid = some c ∧ c.role = .client) ∧
        { st with users := updateUser st.users cid (addPkgFn now) } = st1 := by
  unfold adminAddPackage
  cases h : findUser st cid with
  | none => simp
  | some c => by_cases hr : c.role = .client <;> simp [hr, bne_iff_ne]

theorem findUser_updated (st : AppState) (cid : Nat) (f : User → User)
    (hf : ∀ u, (f u).uid = u.uid) :
    findUser { st with users := updateUser st.users cid f } cid =
      (findUser st cid).map f :=
  find?_updateUser st.users cid f hf

/-- C8: AdminAddPackage adds 8 to activeSessions and sets packageExpiry
to now + 90 days; AdminResetPackage sets activeSessions to 0 and unsets
packageExpiry, leaving a client with no active package at any time; and
replaying AdminResetPackage on an already-reset client is a no-op
returning the identical state. -/
theorem package_add_reset :
    (∀ st cid now st1, adminAddPackage st cid now = .ok st1 →
       ∃ c, findUser st cid = some c ∧
         findUser st1 cid = some { c with activeSessions := c.activeSessions + 8,
                                          packageExpiry := some (now + 90 * dayMs) }) ∧
    (∀ st cid st1, adminResetPackage st cid = .ok st1 →
       ∃ c, findUser st cid = some c ∧
         findUser st1 cid = some { c with activeSessions := 0, packageExpiry := none }) ∧
    (∀ st cid now st1 st2, adminAddPackage st cid now = .ok st1 →
       adminResetPackage st1 cid = .ok st2 →
       ∃ u, findUser st2 cid = some u ∧ u.activeSessions = 0 ∧
         u.packageExpiry = none ∧ ∀ now2, hasActivePackage u now2 = false) ∧
    (∀ st cid st1, adminResetPackage st cid = .ok st1 →
       adminResetPackage st1 cid = .ok st1) := by
  have hreset : ∀ st cid st1, adminResetPackage st cid = .ok st1 →
      ∃ c, findUser st cid = some c ∧
        findUser st1 cid = some { c with activeSessions := 0, packageExpiry := none } := by
    intro st cid st1 h
    obtain ⟨⟨c, hc⟩, hst⟩ := (adminReset_ok_iff st cid st1).mp h
    refine ⟨c, hc, ?_⟩
    rw [← hst, findUser_updated st cid resetPkgFn (fun u => rfl), hc]
    rfl
  refine ⟨?_, hreset, ?_, ?_⟩
  · intro st cid now st1 h
    obtain ⟨⟨c, hc, _⟩, hst⟩ := (adminAdd_ok_iff st cid now st1).mp h
    refine ⟨c, hc, ?_⟩
    rw [← hst, findUser_updated st cid (addPkgFn now) (fun u => rfl), hc]
    rfl
  · intro st cid now st1 st2 hadd hres
    obtain ⟨c, hc1, hc2⟩ := hreset st1 cid st2 hres
    exact ⟨_, hc2, rfl, rfl, fun now2 => by simp [hasActivePackage]⟩
  · intro st cid st1 h
    obtain ⟨⟨c, hc⟩, hst⟩ := (adminReset_ok_iff st cid st1).mp h
    refine (adminReset_ok_iff st1 cid st1).mpr ⟨?_, ?_⟩
    · refine ⟨resetPkgFn c, ?_⟩
      rw [← hst, findUser_updated st cid resetPkgFn (fun u => rfl), hc]
      rfl
    · have husers : updateUser st1.users cid resetPkgFn = st1.users := by
        rw [← hst]
        exact updateUser_idem st.users cid resetPkgFn (fun u => rfl) (fun u => rfl)
      rw [husers]

/-- Witness for C8 at concrete inputs: add a package to client 7, reset
it, and replay the reset. -/
theorem package_add_reset_witness :
    (∃ u, findUser ((adminResetPackage ((adminAddPackage stA 7 0).toOption.getD stA) 7).toOption.getD stA) 7 =
        some u ∧ u.activeSessions = 0 ∧ u.packageExpiry = none ∧
        ∀ now2, hasActivePackage u now2 = false) ∧
    adminResetPackage ((adminResetPackage stA 7).toOption.getD stA) 7 =
      .ok ((adminResetPackage stA 7).toOption.getD stA) := by
  constructor
  · exact package_add_reset.2.2.1 stA 7 0 _ _ rfl rfl
  · exact package_add_reset.2.2.2 stA 7 _ rfl

/-- C9: deleting a session emits a cancellation notification for
exactly its confirmed bookings, hard-deletes all of the session's
bookings of any status together with the session itself, and leaves
the user documents, hence every client package state, untouched: no
package session is ever refunded by the cascade. -/
theorem deleteSession_cascade :
    ∀ st sid,
      (deleteSession st sid).1.users = st.users ∧
      (deleteSession st sid).1.sessions = st.sessions.filter (fun s => s.sid != sid) ∧
      (∀ b, b ∈ (deleteSession st sid).1.bookings ↔ b ∈ st.bookings ∧ b.session ≠ sid) ∧
      (deleteSession st sid).2 =
        (st.bookings.filter
            (fun b => b.session == sid && b.status == BookingStatus.confirmed)).map
          (fun b => { bid := b.bid, client := b.client }) := by
  intro st sid
  refine ⟨rfl, rfl, ?_, rfl⟩
  intro b
  simp [deleteSession, List.mem_filter]

/-- Witness for C9 at concrete inputs: deleting session 1 of the
fixture store removes its booking, notifies client 7 and keeps the
user documents. -/
theorem deleteSession_cascade_witness :
    (deleteSession stA 1).1.users = stA.users ∧
    (bookA ∈ (deleteSession stA 1).1.bookings ↔ bookA ∈ stA.bookings ∧ bookA.session ≠ 1) ∧
    (deleteSession stA 1).2 = [{ bid := 1, client := 7 }] := by
  refine ⟨(deleteSession_cascade stA 1).1, (deleteSession_cascade stA 1).2.2.1 bookA, ?_⟩
  rw [(deleteSession_cascade stA 1).2.2.2]
  rfl

/-- C2 counterexample: with no session 5 in the store and the
out-of-range group size 0, the admission route reports
InvalidGroupSize, not SessionUnavailable: the group-size check runs
before the session lookup, so a missing session does not imply the
SessionUnavailable error as the claim states. -/
theorem admit_error_priority_cex :
    findSession { sessions := [], bookings := [], users := [] } 5 = none ∧
    admitBooking { sessions := [], bookings := [], users := [] }
        .client 7 5 0 false 0 10 = .error .invalidGroupSize ∧
    AdmitError.invalidGroupSize ≠ AdmitError.sessionUnavailable :=
  ⟨rfl, rfl, by decide⟩

/-- C2 (amended): for a client requester, when the session exists and
is active and groupSize lies in [1,4], admission succeeds and creates a
confirmed booking iff available spots cover the group, and fails with
CapacityExceeded otherwise; a groupSize outside [1,4] always fails
with InvalidGroupSize (this check precedes the session lookup); a
missing or inactive session with a groupSize in [1,4] fails with
SessionUnavailable. -/
theorem admitBooking_contract :
    (∀ st uid sid g isPkg now nb s, findSession st sid = some s →
       s.isActive = true → 1 ≤ g → g ≤ 4 →
       ((g ≤ getAvailableSpots st s →
          ∃ st2 b, admitBooking st .client uid sid g isPkg now nb = .ok (st2, b) ∧
            b.status = .confirmed ∧ b.groupSize = g.toNat ∧ b.session = sid ∧
            st2.bookings = st.bookings ++ [b] ∧ st2.sessions = st.sessions) ∧
        (getAvailableSpots st s < g →
          admitBooking st .client uid sid g isPkg now nb = .error .capacityExceeded))) ∧
    (∀ st uid sid g isPkg now nb, ¬(1 ≤ g ∧ g ≤ 4) →
       admitBooking st .client uid sid g isPkg now nb = .error .invalidGroupSize) ∧
    (∀ st uid sid g isPkg now nb, 1 ≤ g → g ≤ 4 →
       (findSession st sid = none ∨
         ∃ s, findSession st sid = some s ∧ s.isActive = false) →
       admitBooking st .client uid sid g isPkg now nb = .error .sessionUnavailable) := by
  refine ⟨?_, ?_, ?_⟩
  · intro st uid sid g isPkg now nb s hfind hact hg1 hg2
    constructor
    · intro hcap
      have hc : hasCapacity st s g = true := by
        simp [hasCapacity, hcap]
      simp only [admitBooking, hfind, hact, hg1, hg2, hc]
      simp [hg1, hg2]
      exact ⟨_, _, ⟨rfl, rfl⟩, by simp, by simp, by simp, rfl, rfl⟩
    · intro hcap
      have hc : hasCapacity st s g = false := by
        simp [hasCapacity]
        omega
      simp [admitBooking, hfind, hact, hg1, hg2, hc]
  · intro st uid sid g isPkg now nb hg
    have : (decide (1 ≤ g) && decide (g ≤ 4)) = false := by
      rcases not_and_or.mp hg with h | h <;> simp [h]
    simp [admitBooking, this]
  · intro st uid sid g isPkg now nb hg1 hg2 hbad
    rcases hbad with hnone | ⟨s, hfind, hinact⟩
    · simp [admitBooking, hnone, hg1, hg2]
    · simp [admitBooking, hfind, hinact, hg1, hg2]

/-- Witness for C2 (amended) at concrete inputs: session 1 of the
fixture store has one spot left, so a group of 1 is admitted and a
group of 2 is rejected with CapacityExceeded; group size 9 is rejected
as invalid; an inactive copy of the session is unavailable. -/
theorem admitBooking_contract_witness :
    (∃ st2 b, admitBooking stA .client 7 1 1 false 0 2 = .ok (st2, b) ∧
       b.status = .confirmed ∧ b.groupSize = (1 : Int).toNat ∧ b.session = 1 ∧
       st2.bookings = stA.bookings ++ [b] ∧ st2.sessions = stA.sessions) ∧
    admitBooking stA .client 7 1 2 false 0 2 = .error .capacityExceeded ∧
    admitBooking stA .client 7 1 9 false 0 2 = .error .invalidGroupSize ∧
    admitBooking { stA with sessions := [{ sessA with isActive := false }] }
        .client 7 1 1 false 0 2 = .error .sessionUnavailable := by
  refine ⟨?_, ?_, ?_, ?_⟩
  · exact ((admitBooking_contract.1 stA 7 1 1 false 0 2 sessA rfl rfl
      (by decide) (by decide)).1 (by decide))
  · exact ((admitBooking_contract.1 stA 7 1 2 false 0 2 sessA rfl rfl
      (by decide) (by decide)).2 (by decide))
  · exact admitBooking_contract.2.1 stA 7 1 9 false 0 2 (by decide)
  · exact admitBooking_contract.2.2 _ 7 1 1 false 0 2 (by decide) (by decide)
      (Or.inr ⟨{ sessA with isActive := false }, rfl, rfl⟩)

/-- C4 counterexample: booking 1 belongs to client 7 with deadline 1000;
at time 0, strictly before the deadline, the non-admin requester 9 is
rejected with NotAuthorized, so a non-admin cancellation request does
not succeed iff now is before the deadline as the claim states. -/
theorem cancel_nonowner_cex :
    ((0 : Int) < 1000) ∧
    (findBooking { sessions := [], bookings := [{ bookA with cancellationDeadline := some 1000 }], users := [] } 1).map
        (fun b => b.cancellationDeadline) = some (some 1000) ∧
    cancelBooking { sessions := [], bookings := [{ bookA with cancellationDeadline := some 1000 }], users := [] }
        .client 9 1 0 = .error .notAuthorized ∧
    (∀ st2, cancelBooking
        { sessions := [], bookings := [{ bookA with cancellationDeadline := some 1000 }], users := [] }
        .client 9 1 0 ≠ .ok st2) := by
  refine ⟨by decide, rfl, rfl, ?_⟩
  intro st2 h
  rw [show cancelBooking
      { sessions := [], bookings := [{ bookA with cancellationDeadline := some 1000 }], users := [] }
      .client 9 1 0 = Except.error .notAuthorized from rfl] at h
  exact Except.noConfusion h

/-- C4 (amended): on an existing booking, an admin requester cancels at
any time regardless of the deadline; a non-admin requester owning the
booking succeeds iff now is strictly before the stored deadline, and
at or past the deadline fails with the window-closed error, leaving
the store unchanged; a non-admin requester who does not own the
booking fails with NotAuthorized regardless of the deadline. -/
theorem cancelBooking_policy :
    (∀ st uid bid now b, findBooking st bid = some b →
       cancelBooking st .admin uid bid now =
         .ok { st with
               users := if b.isPackageBooking then
                   updateUser st.users b.client (fun u =>
                     { u with activeSessions := u.activeSessions - 1 })
                 else st.users,
               bookings := st.bookings.filter (fun x => x.bid != bid) }) ∧
    (∀ b now d, b.cancellationDeadline = some d →
       (isCancellable b now = true ↔ now < d)) ∧
    (∀ st uid bid now b, findBooking st bid = some b → b.client = uid →
       isCancellable b now = true →
       cancelBooking st .client uid bid now =
         .ok { st with
               users := if b.isPackageBooking then
                   updateUser st.users b.client (fun u =>
                     { u with activeSessions := u.activeSessions - 1 })
                 else st.users,
               bookings := st.bookings.filter (fun x => x.bid != bid) }) ∧
    (∀ st uid bid now b, findBooking st bid = some b → b.client = uid →
       isCancellable b now = false →
       cancelBooking st .client uid bid now = .error .windowClosed) ∧
    (∀ st uid bid now b, findBooking st bid = some b → b.client ≠ uid →
       cancelBooking st .client uid bid now = .error .notAuthorized) := by
  refine ⟨?_, ?_, ?_, ?_, ?_⟩
  · intro st uid bid now b hfind
    simp [cancelBooking, hfind]
  · intro b now d hd
    simp [isCancellable, hd]
  · intro st uid bid now b hfind hcl hic
    simp [cancelBooking, hfind, hcl, hic]
  · intro st uid bid now b hfind hcl hic
    simp [cancelBooking, hfind, hcl, hic]
  · intro st uid bid now b hfind hcl
    simp [cancelBooking, hfind, hcl]

/-- A fixture store for the cancellation-policy witness: booking 1 of
client 7 with deadline 1000. -/
def stC4 : AppState :=
  { sessions := [],
    bookings := [{ bookA with cancellationDeadline := some 1000 }],
    users := [userA] }

/-- Witness for C4 (amended) at concrete inputs: at time 5000, past the
deadline 1000 of booking 1, its owner 7 is rejected with the
window-closed error while an admin still cancels; at time 0, before
the deadline, the owner succeeds. -/
theorem cancelBooking_policy_witness :
    cancelBooking stC4 .client 7 1 5000 = .error .windowClosed ∧
    cancelBooking stC4 .admin 3 1 5000 =
      .ok { sessions := [], bookings := [], users := [userA] } ∧
    cancelBooking stC4 .client 7 1 0 =
      .ok { sessions := [], bookings := [], users := [userA] } := by
  refine ⟨?_, ?_, ?_⟩
  · exact cancelBooking_policy.2.2.2.1 stC4 7 1 5000
      { bookA with cancellationDeadline := some 1000 } rfl rfl (by decide)
  · have h := cancelBooking_policy.1 stC4 3 1 5000
      { bookA with cancellationDeadline := some 1000 } rfl
    rw [h]
    rfl
  · have h := cancelBooking_policy.2.2.1 stC4 7 1 0
      { bookA with cancellationDeadline := some 1000 } rfl rfl (by decide)
    rw [h]
    rfl

/-- C7, evaluated at the failing input: client 7 holds zero package
sessions; cancelling the package-flagged booking 1 before its deadline
decrements activeSessions with no floor, leaving the client at the
negative value -1, contradicting the max(0, n-1) no-op-at-zero claim
and the min 0 bound declared in the User schema. -/
theorem package_decrement_goes_negative :
    cancelBooking
        { sessions := [],
          bookings := [{ bookA with cancellationDeadline := some 1000, isPackageBooking := true }],
          users := [userA] } .client 7 1 0 =
      .ok { sessions := [], bookings := [],
            users := [{ uid := 7, role := .client, activeSessions := -1 }] } ∧
    userA.activeSessions = 0 ∧ ((-1 : Int) < 0) := by
  refine ⟨by rfl, rfl, by decide⟩

theorem retryRun_attempts_le (att : Nat → Except String String) :
    ∀ (l : List Nat) (last : Option String),
      (retryRun att l last).attemptsMade ≤ l.length := by
  intro l
  induction l with
  | nil => intro last; simp [retryRun]
  | cons i rest ih =>
    intro last
    cases h : att i with
    | ok mid => simp [retryRun, h]
    | error e =>
      simp only [retryRun, h]
      have := ih (some e)
      simp only [List.length_cons]
      omega

theorem retryRun_all_fail (att : Nat → Except String String) (err : Nat → String) :
    ∀ (n s : Nat) (last : Option String), 1 ≤ n →
      (∀ i, s ≤ i → i < s + n → att i = .error (err i)) →
      retryRun att (List.range' s n) last =
        { success := false, messageId := none, errMsg := some (err (s + n - 1)),
          attemptsMade := n,
          waits := (List.range' s (n - 1)).map (fun i => (2 : Int) ^ i * 1000) } := by
  intro n
  induction n with
  | zero => intro s last h; omega
  | succ m ih =>
    intro s last _ hall
    rw [List.range'_succ]
    have hs : att s = .error (err s) := hall s (le_refl s) (by omega)
    rcases Nat.eq_zero_or_pos m with hm | hm
    · subst hm
      simp [retryRun, hs]
    · have hrec := ih (s + 1) (some (err s)) hm
        (fun i h1 h2 => hall i (by omega) (by omega))
      simp only [retryRun, hs, hrec]
      have hne : (List.range' (s + 1) m).isEmpty = false := by
        obtain ⟨t, ht⟩ : ∃ t, m = t + 1 := ⟨m - 1, by omega⟩
        rw [ht, List.range'_succ]
        rfl
      rw [hne]
      have h1 : s + 1 + m - 1 = s + (m + 1) - 1 := by omega
      have h2 : m + 1 - 1 = m := by omega
      rw [h1, h2]
      have h3 : List.range' s m = s :: List.range' (s + 1) (m - 1) := by
        obtain ⟨t, ht⟩ : ∃ t, m = t + 1 := ⟨m - 1, by omega⟩
        rw [ht, List.range'_succ]
        simp
      rw [h3]
      simp

theorem retryRun_first_success (att : Nat → Except String String)
    (err : Nat → String) (mid : String) :
    ∀ (n s : Nat) (last : Option String) (k : Nat), s ≤ k → k < s + n →
      att k = .ok mid →
      (∀ i, s ≤ i → i < k → att i = .error (err i)) →
      retryRun att (List.range' s n) last =
        { success := true, messageId := some mid, errMsg := none,
          attemptsMade := k - s + 1,
          waits := (List.range' s (k - s)).map (fun i => (2 : Int) ^ i * 1000) } := by
  intro n
  induction n with
  | zero => intro s last k h1 h2; omega
  | succ m ih =>
    intro s last k hk1 hk2 hok hfail
    rw [List.range'_succ]
    rcases Nat.eq_or_lt_of_le hk1 with hks | hks
    · subst hks
      simp [retryRun, hok]
    · have hs : att s = .error (err s) := hfail s (le_refl s) hks
      have hrec := ih (s + 1) (some (err s)) k hks (by omega) hok
        (fun i hi1 hi2 => hfail i (by omega) hi2)
      simp only [retryRun, hs, hrec]
      have hmpos : 1 ≤ m := by omega
      have hne : (List.range' (s + 1) m).isEmpty = false := by
        obtain ⟨t, ht⟩ : ∃ t, m = t + 1 := ⟨m - 1, by omega⟩
        rw [ht, List.range'_succ]
        rfl
      rw [hne]
      have h1 : k - (s + 1) + 1 + 1 = k - s + 1 := by omega
      have h3 : List.range' s (k - s) = s :: List.range' (s + 1) (k - s - 1) := by
        obtain ⟨t, ht⟩ : ∃ t, k - s = t + 1 := ⟨k - s - 1, by omega⟩
        rw [ht, List.range'_succ]
        simp
      have h4 : k - (s + 1) = k - s - 1 := by omega
      rw [h1, h3, h4]
      simp

/-- C6: SendWithRetry attempts delivery at most maxAttempts times
(default 3); it stops at the first success, returning success with the
delivery identifier after waiting 2 ^ attempt seconds after each prior
failed attempt; when all attempts fail it returns, rather than raises,
a failure carrying the error of the last attempt, having waited after
every attempt except the final one (for the default budget the waits
are 2 s then 4 s, none after the third attempt). -/
theorem sendEmailRetry_contract :
    (∀ att maxRetries r, sendEmailRetry true att maxRetries = .ok r →
       r.attemptsMade ≤ maxRetries) ∧
    (∀ att (err : Nat → String) (mid : String) k maxRetries,
       1 ≤ k → k ≤ maxRetries → att k = .ok mid →
       (∀ i, 1 ≤ i → i < k → att i = .error (err i)) →
       sendEmailRetry true att maxRetries =
         .ok { success := true, messageId := some mid, errMsg := none,
               attemptsMade := k,
               waits := (List.range' 1 (k - 1)).map (fun i => (2 : Int) ^ i * 1000) }) ∧
    (∀ att (err : Nat → String) maxRetries, 1 ≤ maxRetries →
       (∀ i, 1 ≤ i → i ≤ maxRetries → att i = .error (err i)) →
       sendEmailRetry true att maxRetries =
         .ok { success := false, messageId := none, errMsg := some (err maxRetries),
               attemptsMade := maxRetries,
               waits := (List.range' 1 (maxRetries - 1)).map
                 (fun i => (2 : Int) ^ i * 1000) }) ∧
    (defaultMaxRetries = 3 ∧
      (List.range' 1 (defaultMaxRetries - 1)).map (fun i => (2 : Int) ^ i * 1000) =
        [2000, 4000]) := by
  refine ⟨?_, ?_, ?_, rfl, by decide⟩
  · intro att maxRetries r h
    simp only [sendEmailRetry, Bool.not_true, Bool.false_eq_true, if_false] at h
    injection h with h2
    rw [← h2]
    have := retryRun_attempts_le att (List.range' 1 maxRetries) none
    simpa using this
  · intro att err mid k maxRetries hk1 hk2 hok hfail
    have h := retryRun_first_success att err mid maxRetries 1 none k hk1
      (by omega) hok hfail
    simp only [sendEmailRetry, Bool.not_true, Bool.false_eq_true, if_false, h]
    have : k - 1 + 1 = k := by omega
    rw [this]
  · intro att err maxRetries hmax hfail
    have h := retryRun_all_fail att err maxRetries 1 none hmax
      (fun i h1 h2 => hfail i h1 (by omega))
    simp only [sendEmailRetry, Bool.not_true, Bool.false_eq_true, if_false, h]
    have : 1 + maxRetries - 1 = maxRetries := by omega
    rw [this]

/-- Witness for C6 at concrete inputs: an attempt oracle failing twice
then succeeding returns success with two waits of 2 s and 4 s; an
always-failing oracle exhausts the default 3 attempts and returns the
last failure. -/
theorem sendEmailRetry_contract_witness :
    sendEmailRetry true (fun i => if i == 3 then .ok "mid9" else .error "boom") 3 =
      .ok { success := true, messageId := some "mid9", errMsg := none,
            attemptsMade := 3, waits := [2000, 4000] } ∧
    sendEmailRetry true (fun _ => .error "down") 3 =
      .ok { success := false, messageId := none, errMsg := some "down",
            attemptsMade := 3, waits := [2000, 4000] } := by
  constructor
  · have h := sendEmailRetry_contract.2.1
      (fun i => if i == 3 then .ok "mid9" else .error "boom")
      (fun _ => "boom") "mid9" 3 3 (by decide) (by decide) rfl
      (fun i h1 h2 => by
        have : i = 1 ∨ i = 2 := by omega
        rcases this with h3 | h3 <;> subst h3 <;> rfl)
    rw [h]
    rfl
  · have h := sendEmailRetry_contract.2.2.1 (fun _ => .error "down")
      (fun _ => "down") 3 (by decide) (fun i h1 h2 => rfl)
    rw [h]
    rfl

theorem admit_ok_inv {st st2 : AppState} {role : Role} {uid sid : Nat} {g : Int}
    {isPkg : Bool} {now : Int} {nb : Nat} {b : Booking}
    (h : admitBooking st role uid sid g isPkg now nb = .ok (st2, b)) :
    ∃ s, findSession st sid = some s ∧ s.isActive = true ∧ 1 ≤ g ∧ g ≤ 4 ∧
      hasCapacity st s g = true ∧ b.session = sid ∧ b.status = .confirmed ∧
      b.groupSize = g.toNat ∧ st2.sessions = st.sessions ∧
      st2.bookings = st.bookings ++ [b] := by
  unfold admitBooking at h
  split at h
  · exact absurd h (by simp)
  · split at h
    · exact absurd h (by simp)
    · rename_i hguard
      have hg : 1 ≤ g ∧ g ≤ 4 := by
        constructor <;> by_contra hc <;> simp [hc] at hguard
      split at h
      · exact absurd h (by simp)
      · rename_i s hfind
        split at h
        · exact absurd h (by simp)
        · split at h
          · exact absurd h (by simp)
          · rename_i hact hcap
            injection h with hpair
            injection hpair with h1 h2
            refine ⟨s, hfind, by simpa using hact, hg.1, hg.2,
              by simpa using hcap, ?_, ?_, ?_, ?_, ?_⟩
            · rw [← h2]; simp
            · rw [← h2]; simp
            · rw [← h2]; simp
            · rw [← h1]
            · rw [← h1, ← h2]

theorem cancel_ok_inv {st st2 : AppState} {role : Role} {uid bid : Nat} {now : Int}
    (h : cancelBooking st role uid bid now = .ok st2) :
    st2.sessions = st.sessions ∧
    st2.bookings = st.bookings.filter (fun x => x.bid != bid) := by
  unfold cancelBooking at h
  split at h
  · exact absurd h (by simp)
  · split at h
    · exact absurd h (by simp)
    · split at h
      · exact absurd h (by simp)
      · injection h with h1
        rw [← h1]
        exact ⟨rfl, rfl⟩

theorem findSession_unique (st : AppState)
    (hnd : (st.sessions.map (fun s => s.sid)).Nodup) {sid : Nat} {s s2 : Session}
    (hfind : findSession st sid = some s) (hmem : s2 ∈ st.sessions)
    (hsid : s2.sid = sid) : s2 = s := by
  have hm := List.mem_of_find?_eq_some hfind
  have hp : s.sid = sid := by simpa using List.find?_some hfind
  exact List.inj_on_of_nodup_map hnd hmem hm (by rw [hsid, hp])

theorem step_preserves_good {st st2 : AppState} (hg : goodState st)
    (hs : Step st st2) : goodState st2 := by
  obtain ⟨hnd, hcap⟩ := hg
  cases hs with
  | admission role uid sid g isPkg now nb b h =>
    obtain ⟨s, hfind, hact, hg1, hg2, hcapb, hbs, hbst, hbg, hsess, hbook⟩ :=
      admit_ok_inv h
    refine ⟨by rw [hsess]; exact hnd, ?_⟩
    intro s2 hmem2
    rw [hsess] at hmem2
    rw [hbook, confirmedGroupSum_append_single]
    by_cases hcase : b.session = s2.sid ∧ b.status = .confirmed
    · rw [if_pos hcase]
      have hsid2 : s2.sid = sid := by rw [← hcase.1, hbs]
      have hs2 : s2 = s := findSession_unique st hnd hfind hmem2 hsid2
      subst hs2
      have hcap2 : (g : Int) ≤
          (s2.maxCapacity : Int) - (confirmedGroupSum st.bookings s2.sid : Int) := by
        simpa [hasCapacity, getAvailableSpots] using hcapb
      rw [hbg]
      omega
    · rw [if_neg hcase]
      simpa using hcap s2 hmem2
  | cancel role uid bid now h =>
    obtain ⟨hsess, hbook⟩ := cancel_ok_inv h
    refine ⟨by rw [hsess]; exact hnd, ?_⟩
    intro s2 hmem2
    rw [hsess] at hmem2
    rw [hbook]
    exact le_trans (confirmedGroupSum_filter_le _ _ _) (hcap s2 hmem2)
  | removeSession sid =>
    constructor
    · exact ((List.filter_sublist _).map _).nodup hnd
    · intro s2 hmem2
      have hmem := List.mem_of_mem_filter hmem2
      exact le_trans (confirmedGroupSum_filter_le _ _ _) (hcap s2 hmem)

theorem reach_preserves_good {st0 st : AppState} (h0 : goodState st0)
    (hr : Reach st0 st) : goodState st := by
  induction hr with
  | refl => exact h0
  | tail hr hs ih => exact step_preserves_good ih hs

theorem admit_overflow_rejected (st : AppState) (role : Role) (uid sid : Nat)
    (g : Int) (isPkg : Bool) (now : Int) (nb : Nat) (s : Session)
    (hfind : findSession st sid = some s)
    (hover : (s.maxCapacity : Int) < (confirmedGroupSum st.bookings sid : Int) + g) :
    ∀ st2 b, admitBooking st role uid sid g isPkg now nb ≠ .ok (st2, b) := by
  intro st2 b h
  obtain ⟨s2, hfind2, _, hg1, _, hcap2, _⟩ := admit_ok_inv h
  rw [hfind] at hfind2
  injection hfind2 with he
  subst he
  have hle : (g : Int) ≤
      (s.maxCapacity : Int) - (confirmedGroupSum st.bookings s.sid : Int) := by
    simpa [hasCapacity, getAvailableSpots] using hcap2
  have hsid : s.sid = sid := by simpa using List.find?_some hfind
  rw [hsid] at hle
  omega

/-! ### Reminder-scheduler lemmas

During a tick the booking list only ever changes by switching some
reminderSent flags from false to true; Evolves captures this. -/

/-- A booking with its reminderSent flag switched on. -/
def flagOn (b : Booking) : Booking := { b with reminderSent := true }

/-- The booking list evolves pointwise: each document is unchanged or
has its reminderSent flag switched on. -/
def Evolves (bs bs2 : List Booking) : Prop :=
  List.Forall₂ (fun b b2 => b2 = b ∨ b2 = flagOn b) bs bs2

theorem evolves_refl (bs : List Booking) : Evolves bs bs :=
  List.forall₂_same.mpr (fun _ _ => Or.inl rfl)

theorem evolves_trans {a b c : List Booking} (h1 : Evolves a b)
    (h2 : Evolves b c) : Evolves a c := by
  induction h1 generalizing c with
  | nil => cases h2; exact List.Forall₂.nil
  | cons hr h ih =>
    cases h2 with
    | cons hr2 h2 =>
      refine List.Forall₂.cons ?_ (ih h2)
      rcases hr with rfl | rfl <;> rcases hr2 with rfl | rfl
      · exact Or.inl rfl
      · exact Or.inr rfl
      · exact Or.inr rfl
      · exact Or.inr rfl

theorem evolves_setReminder (bs : List Booking) (k : Nat) :
    Evolves bs (setReminder bs k) := by
  induction bs with
  | nil => exact List.Forall₂.nil
  | cons b l ih =>
    simp only [setReminder, List.map_cons]
    refine List.Forall₂.cons ?_ ih
    by_cases h : b.bid = k
    · right; simp [flagOn, h]
    · left; simp [h]

theorem evolves_dispatchAll (ocl : Nat → Bool) :
    ∀ (due : List Booking) (acc : List Booking × List RemEvent),
      Evolves acc.1 (dispatchAll ocl due acc).1 := by
  intro due
  induction due with
  | nil => intro acc; exact evolves_refl _
  | cons b rest ih =>
    rintro ⟨bs, evs⟩
    simp only [dispatchAll]
    by_cases hok : ocl b.bid = true
    · rw [if_pos hok]
      exact evolves_trans (evolves_setReminder bs b.bid)
        (ih (setReminder bs b.bid,
          evs ++ [{ bid := b.bid, client := b.client, success := ocl b.bid }]))
    · rw [if_neg hok]
      exact ih (bs,
        evs ++ [{ bid := b.bid, client := b.client, success := ocl b.bid }])

theorem evolves_tickSession (ocl : Nat → Bool) (now : Int)
    (acc : List Booking × List RemEvent) (s : Session) :
    Evolves acc.1 (tickSession ocl now acc s).1 := by
  unfold tickSession
  by_cases hfine : inFineWindow now s = true
  · rw [if_pos hfine]; exact evolves_dispatchAll ocl _ acc
  · rw [if_neg hfine]; exact evolves_refl _

theorem evolves_tickSessions (ocl : Nat → Bool) (now : Int) :
    ∀ (slist : List Session) (acc : List Booking × List RemEvent),
      Evolves acc.1 (tickSessions ocl now slist acc).1 := by
  intro slist
  induction slist with
  | nil => intro acc; exact evolves_refl _
  | cons s rest ih =>
    intro acc
    exact evolves_trans (evolves_tickSession ocl now acc s) (ih _)

theorem evolves_tick (ocl : Nat → Bool) (now : Int) (sessions : List Session)
    (bs : List Booking) : Evolves bs (tick ocl now sessions bs).1 :=
  evolves_tickSessions ocl now _ (bs, [])

theorem evolves_mem_false {bs bs2 : List Booking} (h : Evolves bs bs2)
    {b2 : Booking} (hm : b2 ∈ bs2) (hf : b2.reminderSent = false) : b2 ∈ bs := by
  induction h with
  | nil => cases hm
  | cons hr h ih =>
    rcases List.mem_cons.mp hm with rfl | hm2
    · rcases hr with rfl | rfl
      · exact List.mem_cons_self _ _
      · simp [flagOn] at hf
    · exact List.mem_cons_of_mem _ (ih hm2)

theorem evolves_mem_fwd {bs bs2 : List Booking} (h : Evolves bs bs2)
    {x : Booking} (hm : x ∈ bs) : ∃ b2 ∈ bs2, b2 = x ∨ b2 = flagOn x := by
  induction h with
  | nil => cases hm
  | cons hr h ih =>
    rcases List.mem_cons.mp hm with heq | hm2
    · subst heq
      exact ⟨_, List.mem_cons_self _ _, hr⟩
    · obtain ⟨b2, hb2, hor⟩ := ih hm2
      exact ⟨b2, List.mem_cons_of_mem _ hb2, hor⟩

theorem evolves_bids {bs bs2 : List Booking} (h : Evolves bs bs2) :
    bs2.map (fun b => b.bid) = bs.map (fun b => b.bid) := by
  induction h with
  | nil => rfl
  | cons hr h ih =>
    rcases hr with rfl | rfl <;> simp [flagOn, ih]

/-- Some document in the list carries this bid with the flag on. -/
def FlagTrue (bs : List Booking) (k : Nat) : Prop :=
  ∃ b ∈ bs, b.bid = k ∧ b.reminderSent = true

theorem evolves_flagTrue {bs bs2 : List Booking} (h : Evolves bs bs2) {k : Nat}
    (hf : FlagTrue bs k) : FlagTrue bs2 k := by
  obtain ⟨b, hm, hbid, hfl⟩ := hf
  obtain ⟨b2, hm2, hor⟩ := evolves_mem_fwd h hm
  rcases hor with heq | heq
  · exact ⟨b2, hm2, by rw [heq]; exact hbid, by rw [heq]; exact hfl⟩
  · exact ⟨b2, hm2, by rw [heq]; exact hbid, by rw [heq]; rfl⟩

theorem flagTrue_setReminder_rev {bs : List Booking} {k x : Nat}
    (h : FlagTrue (setReminder bs k) x) : FlagTrue bs x ∨ x = k := by
  obtain ⟨b2, hm, hbid, hfl⟩ := h
  unfold setReminder at hm
  obtain ⟨b, hmb, rfl⟩ := List.mem_map.mp hm
  by_cases hb : b.bid = k
  · right
    simp [hb] at hbid
    omega
  · left
    simp only [beq_eq_false_iff_ne.mpr hb, Bool.false_eq_true, if_false] at hbid hfl
    exact ⟨b, hmb, hbid, hfl⟩

theorem flagTrue_setReminder_self {bs : List Booking} {k : Nat} {u : Booking}
    (hm : u ∈ bs) (hbid : u.bid = k) : FlagTrue (setReminder bs k) k := by
  refine ⟨{ u with reminderSent := true }, ?_, by simpa using hbid, rfl⟩
  unfold setReminder
  have h2 := List.mem_map_of_mem
    (fun b => if b.bid == k then { b with reminderSent := true } else b) hm
  simpa [hbid] using h2

theorem dispatchAll_events (ocl : Nat → Bool) :
    ∀ (due : List Booking) (acc : List Booking × List RemEvent) (e : RemEvent),
      e ∈ (dispatchAll ocl due acc).2 →
      e ∈ acc.2 ∨ ∃ b ∈ due,
        e = { bid := b.bid, client := b.client, success := ocl b.bid } := by
  intro due
  induction due with
  | nil => intro acc e he; exact Or.inl he
  | cons b rest ih =>
    rintro ⟨bs, evs⟩ e he
    simp only [dispatchAll] at he
    rcases ih _ e he with h1 | ⟨b2, hm2, he2⟩
    · rcases List.mem_append.mp h1 with h2 | h2
      · exact Or.inl h2
      · right
        exact ⟨b, List.mem_cons_self _ _, by simpa using h2⟩
    · right
      exact ⟨b2, List.mem_cons_of_mem _ hm2, he2⟩

theorem tickSessions_events (ocl : Nat → Bool) (now : Int) :
    ∀ (slist : List Session) (acc : List Booking × List RemEvent) (e : RemEvent),
      e ∈ (tickSessions ocl now slist acc).2 →
      e ∈ acc.2 ∨ ∃ s ∈ slist, inFineWindow now s = true ∧
        ∃ bs0 b, Evolves acc.1 bs0 ∧ b ∈ bs0 ∧ dueFilter s b = true ∧
          e = { bid := b.bid, client := b.client, success := ocl b.bid } := by
  intro slist
  induction slist with
  | nil => intro acc e he; exact Or.inl he
  | cons s rest ih =>
    intro acc e he
    simp only [tickSessions] at he
    rcases ih _ e he with h1 | ⟨s2, hm2, hfine2, bs0, b, hev, hb, hdf, hee⟩
    · unfold tickSession at h1
      by_cases hfine : inFineWindow now s = true
      · rw [if_pos hfine] at h1
        rcases dispatchAll_events ocl _ _ e h1 with h2 | ⟨b, hmb, he2⟩
        · exact Or.inl h2
        · right
          refine ⟨s, List.mem_cons_self _ _, hfine, acc.1, b, evolves_refl _,
            (List.mem_filter.mp hmb).1, (List.mem_filter.mp hmb).2, he2⟩
      · rw [if_neg hfine] at h1
        exact Or.inl h1
    · right
      exact ⟨s2, List.mem_cons_of_mem _ hm2, hfine2, bs0, b,
        evolves_trans (evolves_tickSession ocl now acc s) hev, hb, hdf, hee⟩

theorem tick_only_when (ocl : Nat → Bool) (now : Int) (sessions : List Session)
    (bs : List Booking) :
    ∀ e ∈ (tick ocl now sessions bs).2,
      ∃ b ∈ bs, b.bid = e.bid ∧ b.status = .confirmed ∧ b.reminderSent = false ∧
        ∃ s ∈ sessions, s.sid = b.session ∧ s.isActive = true ∧
          windowStart now ≤ sessionDateTime s ∧ sessionDateTime s ≤ windowEnd now := by
  intro e he
  unfold tick at he
  rcases tickSessions_events ocl now _ _ e he with h1 | h2
  · cases h1
  · obtain ⟨s, hms, hfine, bs0, b, hev, hb, hdf, hee⟩ := h2
    have hmem := List.mem_filter.mp hms
    have hdf2 := hdf
    simp only [dueFilter, Bool.and_eq_true, beq_iff_eq, Bool.not_eq_true'] at hdf2
    obtain ⟨⟨hsess, hstat⟩, hflag⟩ := hdf2
    have hbmem : b ∈ bs := evolves_mem_false hev hb hflag
    have hco := hmem.2
    simp only [coarseFilter, Bool.and_eq_true, decide_eq_true_eq] at hco
    have hfw := hfine
    simp only [inFineWindow, Bool.and_eq_true, decide_eq_true_eq] at hfw
    exact ⟨b, hbmem, by rw [hee], hstat, hflag,
      s, hmem.1, hsess.symm, hco.2, hfw.1, hfw.2⟩

/-- Per-tick source of a raised flag: it was already raised in the
input, or some successful dispatch event of the tick carries its bid. -/
def FlagSrc (bsOrig : List Booking) (acc : List Booking × List RemEvent) : Prop :=
  ∀ b2 ∈ acc.1, b2.reminderSent = true →
    (∃ b ∈ bsOrig, b.bid = b2.bid ∧ b.reminderSent = true) ∨
    (∃ e ∈ acc.2, e.bid = b2.bid ∧ e.success = true)

theorem dispatchAll_flagSrc {ocl : Nat → Bool} {bsOrig : List Booking} :
    ∀ (due : List Booking) (acc : List Booking × List RemEvent),
      FlagSrc bsOrig acc → FlagSrc bsOrig (dispatchAll ocl due acc) := by
  intro due
  induction due with
  | nil => exact fun acc h => h
  | cons b rest ih =>
    rintro ⟨bs, evs⟩ hP
    simp only [dispatchAll]
    apply ih
    intro b2 hm2 hf2
    by_cases hok : ocl b.bid = true
    · rw [if_pos hok] at hm2
      unfold setReminder at hm2
      obtain ⟨b3, hm3, rfl⟩ := List.mem_map.mp hm2
      by_cases hb3 : b3.bid = b.bid
      · right
        refine ⟨{ bid := b.bid, client := b.client, success := ocl b.bid },
          List.mem_append.mpr (Or.inr (List.mem_singleton.mpr rfl)), ?_, by simpa using hok⟩
        simp [hb3]
      · simp only [beq_eq_false_iff_ne.mpr hb3, Bool.false_eq_true, if_false] at hf2 ⊢
        rcases hP b3 hm3 hf2 with h4 | ⟨e, hme, he⟩
        · exact Or.inl h4
        · exact Or.inr ⟨e, List.mem_append.mpr (Or.inl hme), he⟩
    · rw [if_neg hok] at hm2
      rcases hP b2 hm2 hf2 with h4 | ⟨e, hme, he⟩
      · exact Or.inl h4
      · exact Or.inr ⟨e, List.mem_append.mpr (Or.inl hme), he⟩

theorem tickSessions_flagSrc {ocl : Nat → Bool} {now : Int} {bsOrig : List Booking} :
    ∀ (slist : List Session) (acc : List Booking × List RemEvent),
      FlagSrc bsOrig acc → FlagSrc bsOrig (tickSessions ocl now slist acc) := by
  intro slist
  induction slist with
  | nil => exact fun acc h => h
  | cons s rest ih =>
    intro acc hP
    simp only [tickSessions]
    apply ih
    unfold tickSession
    by_cases hfine : inFineWindow now s = true
    · rw [if_pos hfine]
      exact dispatchAll_flagSrc _ _ hP
    · rw [if_neg hfine]
      exact hP

theorem tick_flag_only_success (ocl : Nat → Bool) (now : Int)
    (sessions : List Session) (bs : List Booking) :
    ∀ b2 ∈ (tick ocl now sessions bs).1, b2.reminderSent = true →
      (∃ b ∈ bs, b.bid = b2.bid ∧ b.reminderSent = true) ∨
      (∃ e ∈ (tick ocl now sessions bs).2, e.bid = b2.bid ∧ e.success = true) := by
  have h0 : FlagSrc bs (bs, ([] : List RemEvent)) := by
    intro b2 hm2 hf2
    exact Or.inl ⟨b2, hm2, rfl, hf2⟩
  exact tickSessions_flagSrc _ _ h0

/-- Number of successful dispatch events carrying a bid. -/
def successCount (evs : List RemEvent) (k : Nat) : Nat :=
  (evs.filter (fun e => e.bid == k && e.success)).length

theorem successCount_append (a b : List RemEvent) (k : Nat) :
    successCount (a ++ b) k = successCount a k + successCount b k := by
  simp [successCount, List.filter_append]

theorem successCount_eq_zero {evs : List RemEvent} {k : Nat}
    (h : ∀ e ∈ evs, e.bid ≠ k) : successCount evs k = 0 := by
  unfold successCount
  rw [List.length_eq_zero]
  rw [List.filter_eq_nil_iff]
  intro e he
  simp [h e he]

theorem dispatchAll_noEv {ocl : Nat → Bool} {k : Nat} :
    ∀ (due : List Booking) (acc : List Booking × List RemEvent),
      (∀ b ∈ due, b.bid ≠ k) → FlagTrue acc.1 k → (∀ e ∈ acc.2, e.bid ≠ k) →
      FlagTrue (dispatchAll ocl due acc).1 k ∧
        ∀ e ∈ (dispatchAll ocl due acc).2, e.bid ≠ k := by
  intro due
  induction due with
  | nil => exact fun acc _ hf he => ⟨hf, he⟩
  | cons b rest ih =>
    rintro ⟨bs, evs⟩ hdue hf he
    simp only [dispatchAll]
    apply ih
    · exact fun b2 hb2 => hdue b2 (List.mem_cons_of_mem _ hb2)
    · by_cases hok : ocl b.bid = true
      · rw [if_pos hok]
        exact evolves_flagTrue (evolves_setReminder bs b.bid) hf
      · rw [if_neg hok]
        exact hf
    · intro e hee
      rcases List.mem_append.mp hee with h1 | h1
      · exact he e h1
      · have : e = { bid := b.bid, client := b.client, success := ocl b.bid } := by
          simpa using h1
        rw [this]
        exact hdue b (List.mem_cons_self _ _)

theorem tickSession_noEv {ocl : Nat → Bool} {now : Int} {k : Nat}
    (acc : List Booking × List RemEvent) (s : Session)
    (hnd : (acc.1.map (fun b => b.bid)).Nodup)
    (hf : FlagTrue acc.1 k) (he : ∀ e ∈ acc.2, e.bid ≠ k) :
    FlagTrue (tickSession ocl now acc s).1 k ∧
      ∀ e ∈ (tickSession ocl now acc s).2, e.bid ≠ k := by
  unfold tickSession
  by_cases hfine : inFineWindow now s = true
  · rw [if_pos hfine]
    refine dispatchAll_noEv _ _ ?_ hf he
    intro b hb hbk
    have hmem := List.mem_filter.mp hb
    have hflag : b.reminderSent = false := by
      have := hmem.2
      simp only [dueFilter, Bool.and_eq_true, Bool.not_eq_true'] at this
      exact this.2
    obtain ⟨u, hu, hubid, hufl⟩ := hf
    have hbu : b = u :=
      List.inj_on_of_nodup_map hnd hmem.1 hu (by rw [hbk, hubid])
    rw [hbu, hufl] at hflag
    cases hflag
  · rw [if_neg hfine]
    exact ⟨hf, he⟩

theorem tickSessions_noEv {ocl : Nat → Bool} {now : Int} {k : Nat} :
    ∀ (slist : List Session) (acc : List Booking × List RemEvent),
      (acc.1.map (fun b => b.bid)).Nodup → FlagTrue acc.1 k →
      (∀ e ∈ acc.2, e.bid ≠ k) →
      FlagTrue (tickSessions ocl now slist acc).1 k ∧
        ∀ e ∈ (tickSessions ocl now slist acc).2, e.bid ≠ k := by
  intro slist
  induction slist with
  | nil => exact fun acc _ hf he => ⟨hf, he⟩
  | cons s rest ih =>
    intro acc hnd hf he
    simp only [tickSessions]
    obtain ⟨hf2, he2⟩ := tickSession_noEv acc s hnd hf he
    refine ih _ ?_ hf2 he2
    rw [evolves_bids (evolves_tickSession ocl now acc s)]
    exact hnd

theorem tick_bids (ocl : Nat → Bool) (now : Int) (sessions : List Session)
    (bs : List Booking) :
    (tick ocl now sessions bs).1.map (fun b => b.bid) = bs.map (fun b => b.bid) :=
  evolves_bids (evolves_tick ocl now sessions bs)

theorem tick_noEv (ocl : Nat → Bool) (now : Int) (sessions : List Session)
    (bs : List Booking) (k : Nat) (hnd : (bs.map (fun b => b.bid)).Nodup)
    (hf : FlagTrue bs k) :
    FlagTrue (tick ocl now sessions bs).1 k ∧
      ∀ e ∈ (tick ocl now sessions bs).2, e.bid ≠ k :=
  tickSessions_noEv _ (bs, []) hnd hf (fun e he => absurd he (List.not_mem_nil e))

theorem runTicks_noEv :
    ∀ (ticks : List ((Nat → Bool) × Int)) (sessions : List Session)
      (bs : List Booking) (k : Nat),
      (bs.map (fun b => b.bid)).Nodup → FlagTrue bs k →
      ∀ e ∈ (runTicks ticks sessions bs).2, e.bid ≠ k := by
  intro ticks
  induction ticks with
  | nil => intro sessions bs k _ _ e he; cases he
  | cons t rest ih =>
    rintro sessions bs k hnd hf e he
    obtain ⟨ocl, now⟩ := t
    simp only [runTicks] at he
    rcases List.mem_append.mp he with h1 | h2
    · exact (tick_noEv ocl now sessions bs k hnd hf).2 e h1
    · refine ih sessions (tick ocl now sessions bs).1 k ?_ ?_ e h2
      · rw [tick_bids]
        exact hnd
      · exact (tick_noEv ocl now sessions bs k hnd hf).1

theorem dispatchAll_count {ocl : Nat → Bool} {k : Nat} :
    ∀ (due : List Booking) (acc : List Booking × List RemEvent),
      (due.map (fun b => b.bid)).Nodup →
      (∀ b ∈ due, ¬ FlagTrue acc.1 b.bid) →
      (∀ b ∈ due, ∃ u ∈ acc.1, u.bid = b.bid ∧ u.reminderSent = false) →
      successCount acc.2 k ≤ 1 →
      (1 ≤ successCount acc.2 k → FlagTrue acc.1 k) →
      successCount (dispatchAll ocl due acc).2 k ≤ 1 ∧
        (1 ≤ successCount (dispatchAll ocl due acc).2 k →
          FlagTrue (dispatchAll ocl due acc).1 k) := by
  intro due
  induction due with
  | nil => exact fun acc _ _ _ h1 h2 => ⟨h1, h2⟩
  | cons b rest ih =>
    rintro ⟨bs, evs⟩ hnd hd2a hd3a hc1a hc2a
    have hd2 : ∀ x ∈ b :: rest, ¬ FlagTrue bs x.bid := hd2a
    have hd3 : ∀ x ∈ b :: rest, ∃ u ∈ bs, u.bid = x.bid ∧ u.reminderSent = false := hd3a
    have hc1 : successCount evs k ≤ 1 := hc1a
    have hc2 : 1 ≤ successCount evs k → FlagTrue bs k := hc2a
    have hnd2 : (b.bid :: rest.map (fun x => x.bid)).Nodup := by simpa using hnd
    have hhead : b.bid ∉ rest.map (fun x => x.bid) := (List.nodup_cons.mp hnd2).1
    have hndr : (rest.map (fun x => x.bid)).Nodup := (List.nodup_cons.mp hnd2).2
    simp only [dispatchAll]
    by_cases hok : ocl b.bid = true
    · rw [if_pos hok]
      refine ih _ hndr ?_ ?_ ?_ ?_
      · intro b2 hb2 hft
        rcases flagTrue_setReminder_rev hft with h | h
        · exact hd2 b2 (List.mem_cons_of_mem _ hb2) h
        · exact hhead (h ▸ List.mem_map_of_mem _ hb2)
      · intro b2 hb2
        obtain ⟨u, hu, hub, hufl⟩ := hd3 b2 (List.mem_cons_of_mem _ hb2)
        have hne : u.bid ≠ b.bid := by
          rw [hub]
          intro hh
          exact hhead (hh ▸ List.mem_map_of_mem _ hb2)
        refine ⟨u, ?_, hub, hufl⟩
        have hmm := List.mem_map_of_mem
          (fun x => if x.bid == b.bid then { x with reminderSent := true } else x) hu
        simpa [setReminder, beq_eq_false_iff_ne.mpr hne] using hmm
      · by_cases hbk : b.bid = k
        · have hzero : successCount evs k = 0 := by
            by_contra hnz
            have h1 : 1 ≤ successCount evs k := Nat.pos_of_ne_zero hnz
            exact hd2 b (List.mem_cons_self _ _) (hbk ▸ hc2 h1)
          have hokk : ocl k = true := hbk ▸ hok
          have hone : successCount
              [{ bid := b.bid, client := b.client, success := ocl b.bid }] k = 1 := by
            simp [successCount, hbk, hokk]
          rw [successCount_append, hzero, hone]
        · have hsing : successCount
              [{ bid := b.bid, client := b.client, success := ocl b.bid }] k = 0 := by
            simp [successCount, hbk]
          rw [successCount_append, hsing]
          omega
      · intro hcnt
        by_cases hbk : b.bid = k
        · obtain ⟨u, hu, hub, hufl⟩ := hd3 b (List.mem_cons_self _ _)
          exact hbk ▸ flagTrue_setReminder_self hu hub
        · have hsing : successCount
              [{ bid := b.bid, client := b.client, success := ocl b.bid }] k = 0 := by
            simp [successCount, hbk]
          rw [successCount_append, hsing] at hcnt
          exact evolves_flagTrue (evolves_setReminder bs b.bid) (hc2 (by omega))
    · rw [if_neg hok]
      have hoff : ocl b.bid = false := by
        cases h2 : ocl b.bid
        · rfl
        · exact absurd h2 hok
      have hsing : successCount
          [{ bid := b.bid, client := b.client, success := ocl b.bid }] k = 0 := by
        simp [successCount, hoff]
      refine ih _ hndr ?_ ?_ ?_ ?_
      · exact fun b2 hb2 => hd2 b2 (List.mem_cons_of_mem _ hb2)
      · exact fun b2 hb2 => hd3 b2 (List.mem_cons_of_mem _ hb2)
      · rw [successCount_append, hsing]
        omega
      · intro hcnt
        rw [successCount_append, hsing] at hcnt
        exact hc2 (by omega)

theorem tickSession_count {ocl : Nat → Bool} {now : Int} {k : Nat}
    (acc : List Booking × List RemEvent) (s : Session)
    (hnd : (acc.1.map (fun b => b.bid)).Nodup)
    (hc1 : successCount acc.2 k ≤ 1)
    (hc2 : 1 ≤ successCount acc.2 k → FlagTrue acc.1 k) :
    successCount (tickSession ocl now acc s).2 k ≤ 1 ∧
      (1 ≤ successCount (tickSession ocl now acc s).2 k →
        FlagTrue (tickSession ocl now acc s).1 k) := by
  unfold tickSession
  by_cases hfine : inFineWindow now s = true
  · rw [if_pos hfine]
    refine dispatchAll_count _ _ ?_ ?_ ?_ hc1 hc2
    · exact (((List.filter_sublist _).map _).nodup hnd)
    · intro b hb hft
      have hmem := List.mem_filter.mp hb
      have hflag : b.reminderSent = false := by
        have := hmem.2
        simp only [dueFilter, Bool.and_eq_true, Bool.not_eq_true'] at this
        exact this.2
      obtain ⟨u, hu, hubid, hufl⟩ := hft
      have hbu : u = b :=
        List.inj_on_of_nodup_map hnd hu hmem.1 hubid
      rw [hbu] at hufl
      rw [hufl] at hflag
      cases hflag
    · intro b hb
      have hmem := List.mem_filter.mp hb
      have hflag : b.reminderSent = false := by
        have := hmem.2
        simp only [dueFilter, Bool.and_eq_true, Bool.not_eq_true'] at this
        exact this.2
      exact ⟨b, hmem.1, rfl, hflag⟩
  · rw [if_neg hfine]
    exact ⟨hc1, hc2⟩

theorem tickSessions_count {ocl : Nat → Bool} {now : Int} {k : Nat} :
    ∀ (slist : List Session) (acc : List Booking × List RemEvent),
      (acc.1.map (fun b => b.bid)).Nodup →
      successCount acc.2 k ≤ 1 →
      (1 ≤ successCount acc.2 k → FlagTrue acc.1 k) →
      successCount (tickSessions ocl now slist acc).2 k ≤ 1 ∧
        (1 ≤ successCount (tickSessions ocl now slist acc).2 k →
          FlagTrue (tickSessions ocl now slist acc).1 k) := by
  intro slist
  induction slist with
  | nil => exact fun acc _ h1 h2 => ⟨h1, h2⟩
  | cons s rest ih =>
    intro acc hnd hc1 hc2
    simp only [tickSessions]
    obtain ⟨h1, h2⟩ := tickSession_count acc s hnd hc1 hc2
    refine ih _ ?_ h1 h2
    rw [evolves_bids (evolves_tickSession ocl now acc s)]
    exact hnd

theorem tick_count (ocl : Nat → Bool) (now : Int) (sessions : List Session)
    (bs : List Booking) (k : Nat) (hnd : (bs.map (fun b => b.bid)).Nodup) :
    successCount (tick ocl now sessions bs).2 k ≤ 1 ∧
      (1 ≤ successCount (tick ocl now sessions bs).2 k →
        FlagTrue (tick ocl now sessions bs).1 k) :=
  tickSessions_count _ (bs, []) hnd (by simp [successCount])
    (fun h => absurd h (by simp [successCount]))

theorem runTicks_once :
    ∀ (ticks : List ((Nat → Bool) × Int)) (sessions : List Session)
      (bs : List Booking) (k : Nat), (bs.map (fun b => b.bid)).Nodup →
      successCount (runTicks ticks sessions bs).2 k ≤ 1 := by
  intro ticks
  induction ticks with
  | nil => intro sessions bs k _; simp [runTicks, successCount]
  | cons t rest ih =>
    rintro sessions bs k hnd
    obtain ⟨ocl, now⟩ := t
    simp only [runTicks]
    rw [successCount_append]
    have hnd2 : ((tick ocl now sessions bs).1.map (fun b => b.bid)).Nodup := by
      rw [tick_bids]
      exact hnd
    have hp := tick_count ocl now sessions bs k hnd
    rcases Nat.eq_zero_or_pos (successCount (tick ocl now sessions bs).2 k) with h0 | hpos
    · have := ih sessions (tick ocl now sessions bs).1 k hnd2
      omega
    · have h1 : successCount (tick ocl now sessions bs).2 k = 1 :=
        le_antisymm hp.1 hpos
      have hf : FlagTrue (tick ocl now sessions bs).1 k := hp.2 hpos
      have hq0 : successCount (runTicks rest sessions (tick ocl now sessions bs).1).2 k = 0 :=
        successCount_eq_zero (runTicks_noEv rest sessions _ k hnd2 hf)
      omega

/-- C5: during a scan tick a reminder is dispatched for a booking only
when it is confirmed with reminderSent not true and its session is
active with combined timestamp inside the window now + 2h − 7min to
now + 2h + 8min; after a tick the flag is raised only on bookings that
already had it or received a successful dispatch, so a failed dispatch
leaves the flag unset; once the flag is raised no later tick ever
dispatches that booking again; and across any sequence of ticks at most
one successful reminder is dispatched per booking id. -/
theorem reminder_dispatch_once :
    (∀ (ocl : Nat → Bool) (now : Int) sessions bs,
       ∀ e ∈ (tick ocl now sessions bs).2,
         ∃ b ∈ bs, b.bid = e.bid ∧ b.status = .confirmed ∧
           b.reminderSent = false ∧
           ∃ s ∈ sessions, s.sid = b.session ∧ s.isActive = true ∧
             windowStart now ≤ sessionDateTime s ∧
             sessionDateTime s ≤ windowEnd now) ∧
    (∀ (ocl : Nat → Bool) (now : Int) sessions bs,
       ∀ b2 ∈ (tick ocl now sessions bs).1, b2.reminderSent = true →
         (∃ b ∈ bs, b.bid = b2.bid ∧ b.reminderSent = true) ∨
         (∃ e ∈ (tick ocl now sessions bs).2, e.bid = b2.bid ∧ e.success = true)) ∧
    (∀ (ticks : List ((Nat → Bool) × Int)) sessions bs (k : Nat),
       (bs.map (fun b => b.bid)).Nodup → FlagTrue bs k →
       ∀ e ∈ (runTicks ticks sessions bs).2, e.bid ≠ k) ∧
    (∀ (ticks : List ((Nat → Bool) × Int)) sessions bs (k : Nat),
       (bs.map (fun b => b.bid)).Nodup →
       successCount (runTicks ticks sessions bs).2 k ≤ 1) :=
  ⟨tick_only_when, tick_flag_only_success, runTicks_noEv, runTicks_once⟩

/-- Witness for C5 at concrete inputs: one tick over the fixture
session and booking dispatches at most one successful reminder, and a
booking already marked sent receives no event in a later run. -/
theorem reminder_dispatch_once_witness :
    successCount (runTicks [(fun _ => true, 0)] [sessA] [bookA]).2 1 ≤ 1 ∧
    ∀ e ∈ (runTicks [(fun _ => true, 0)] [sessA]
        [{ bookA with reminderSent := true }]).2, e.bid ≠ 1 :=
  ⟨reminder_dispatch_once.2.2.2 [(fun _ => true, 0)] [sessA] [bookA] 1 (by decide),
   reminder_dispatch_once.2.2.1 [(fun _ => true, 0)] [sessA]
     [{ bookA with reminderSent := true }] 1 (by decide)
     ⟨{ bookA with reminderSent := true }, List.mem_singleton.mpr rfl, rfl, rfl⟩⟩

/-- C1: in every store reachable from a well-formed store by the system
operations (booking admission, booking cancellation, session deletion),
every session's confirmed group-size sum is at most its maxCapacity;
and a sequential AdmitBooking whose groupSize would push that sum over
maxCapacity never returns a created booking. -/
theorem capacity_invariant_reachable (st0 st : AppState)
    (h0 : goodState st0) (hr : Reach st0 st) :
    goodState st ∧
    ∀ role uid sid g isPkg now nb s, findSession st sid = some s →
      (s.maxCapacity : Int) < (confirmedGroupSum st.bookings sid : Int) + g →
      ∀ st2 b, admitBooking st role uid sid g isPkg now nb ≠ .ok (st2, b) :=
  ⟨reach_preserves_good h0 hr,
   fun role uid sid g isPkg now nb s hf hov =>
     admit_overflow_rejected st role uid sid g isPkg now nb s hf hov⟩

/-- Witness for C1 at a concrete store: the fixture store is well
formed, reaches itself, keeps the invariant and rejects overflowing
admissions. -/
theorem capacity_invariant_reachable_witness :
    goodState stA ∧
      (goodState stA ∧
        ∀ role uid sid g isPkg now nb s, findSession stA sid = some s →
          (s.maxCapacity : Int) < (confirmedGroupSum stA.bookings sid : Int) + g →
          ∀ st2 b, admitBooking stA role uid sid g isPkg now nb ≠ .ok (st2, b)) :=
  ⟨by unfold goodState; decide,
   capacity_invariant_reachable stA stA (by unfold goodState; decide) (Reach.refl stA)⟩

end PTB
